import Mathlib

/-!
Verification of the graph-coloring query module: the population factory
(`src/python/graph_coloring/population_factory.py`) and the procedure entry
points and graph conversions (`src/python/graph_coloring.py`).

Individuals are opaque to the factory, so the embedding is polymorphic in the
individual type `α`; the random constructor `Individual(no_of_colors, graph)`
is modelled by an oracle `fresh : ℕ → α` giving the i-th randomly built
individual, and each configured seeding algorithm is modelled by its result
on the given graph and parameters (`Option α`, `none` = the algorithm failed).
-/

namespace PopulationFactory

/-- Python slice `l[a:b]` for non-negative bounds `a`, `b`:
drop `a`, then take `b - a` (empty when `b ≤ a`, clamped at the end). -/
def pySlice {α : Type} (l : List α) (a b : ℕ) : List α :=
  (l.drop a).take (b - a)

/-- `_list_chunks(individuals, population_size, no_of_chunks)`:
`k, m = divmod(population_size, no_of_chunks)` and chunk `i` is the slice
`individuals[i*k + min(i, m) : (i+1)*k + min(i+1, m)]` for `i in range(no_of_chunks)`. -/
def list_chunks {α : Type} (individuals : List α)
    (population_size no_of_chunks : ℕ) : List (List α) :=
  let k := population_size / no_of_chunks
  let m := population_size % no_of_chunks
  (List.range no_of_chunks).map (fun i =>
    pySlice individuals (i * k + min i m) ((i + 1) * k + min (i + 1) m))

/-- The seeding loop of `generate_individuals`: for each algorithm result in
order, return `None` as soon as an algorithm failed, otherwise append its
individual while fewer than `population_size` have been collected. -/
def genLoop {α : Type} (population_size : ℕ) :
    List (Option α) → List α → Option (List α)
  | [], acc => some acc
  | none :: _, _ => none
  | some indv :: rest, acc =>
      genLoop population_size rest
        (if acc.length < population_size then acc ++ [indv] else acc)

/-- `generate_individuals(graph, parameters)`: run the configured seeding
algorithms (if any), then extend with `population_size - len(individuals)`
randomly built individuals. `algResults` is `none` when the `algorithms`
parameter is `None`, otherwise the list of the algorithms' outputs in
configuration order. -/
def generate_individuals {α : Type} (population_size : ℕ)
    (algResults : Option (List (Option α))) (fresh : ℕ → α) :
    Option (List α) :=
  let base :=
    match algResults with
    | none => some []
    | some results => genLoop population_size results []
  match base with
  | none => none
  | some individuals =>
      some (individuals ++
        (List.range (population_size - individuals.length)).map fresh)

/-- A population object: `ChainPopulation(graph, individuals)` for the
single-chunk case, `ChainChunk(graph, individuals, prev_individual,
next_individual)` for a ring chunk. The graph argument carries no state
used by the claims and is omitted. -/
inductive Pop (α : Type) : Type
  | chainPopulation (individuals : List α)
  | chainChunk (individuals : List α) (prev_individual next_individual : α)
  deriving DecidableEq

/-- How `create` can fail: a parameter-validation failure, a seeding
failure, or an index error while reading a ring neighbour's boundary
individual (`chunks[prev][-1]` / `chunks[next][0]` on an empty chunk). -/
inductive CreateError : Type
  | validationError
  | seedingFailure
  | indexError
  deriving DecidableEq

/-- The ring wiring of one chunk in `create`:
`prev_chunk = i - 1 if i - 1 > 0 else no_of_chunks - 1`,
`next_chunk = i + 1 if i + 1 < no_of_chunks else 0`, then
`ChainChunk(graph, chunk, chunks[prev_chunk][-1], chunks[next_chunk][0])`.
(Note the source guard is `i - 1 > 0`, not `i - 1 >= 0`; for a Python int,
`i - 1 > 0` iff `i ≥ 2`, which truncated ℕ subtraction reproduces.) -/
def wireChunk {α : Type} (no_of_chunks : ℕ) (chunks : List (List α))
    (i : ℕ) (chunk : List α) : Option (Pop α) :=
  let prev_chunk := if i - 1 > 0 then i - 1 else no_of_chunks - 1
  let next_chunk := if i + 1 < no_of_chunks then i + 1 else 0
  match (chunks.getD prev_chunk []).getLast?, (chunks.getD next_chunk []).head? with
  | some p, some n => some (Pop.chainChunk chunk p n)
  | _, _ => none

/-- The `for i, chunk in enumerate(chunks)` loop of `create`, starting at
index `i`. -/
def wireAll {α : Type} (no_of_chunks : ℕ) (chunks : List (List α)) :
    ℕ → List (List α) → Option (List (Pop α))
  | _, [] => some []
  | i, chunk :: rest =>
      match wireChunk no_of_chunks chunks i chunk,
            wireAll no_of_chunks chunks (i + 1) rest with
      | some pop, some pops => some (pop :: pops)
      | _, _ => none

/-- `create(graph, parameters)`. The entry validation is modelled from the
spec: the `@validate` decorator (`telco.utils.validation`, not part of the
sources here) must reject `population_size < no_of_chunks` with a
ValidationError before any chunking. A seeding failure aborts construction
(`generate_individuals` returns `None`; the multi-chunk path then subscripts
`None` in `_list_chunks` and the single-chunk path hands `None` to the
`ChainPopulation` constructor, modelled from the spec as requiring a
sequence of individuals): no population is returned. Otherwise: one
`ChainPopulation` when `no_of_chunks == 1`, else `_list_chunks` followed by
ring wiring. -/
def create {α : Type} (population_size no_of_chunks : ℕ)
    (algResults : Option (List (Option α))) (fresh : ℕ → α) :
    Except CreateError (List (Pop α)) :=
  if population_size < no_of_chunks then
    Except.error CreateError.validationError
  else
    match generate_individuals population_size algResults fresh with
    | none => Except.error CreateError.seedingFailure
    | some individuals =>
      if no_of_chunks = 1 then
        Except.ok [Pop.chainPopulation individuals]
      else
        let chunks := list_chunks individuals population_size no_of_chunks
        match wireAll no_of_chunks chunks 0 chunks with
        | some pops => Except.ok pops
        | none => Except.error CreateError.indexError

end PopulationFactory

namespace GraphColoring

/-- A host edge as the conversions see it: endpoint vertex ids and the value
of `e.properties["weight"]` (`none` when the edge has no `weight` property,
in which case the Python subscript raises `KeyError`). -/
structure Edge : Type where
  fromV : ℕ
  toV : ℕ
  weight : Option ℤ
  deriving DecidableEq

/-- `adj_list[u].append(entry)` on a `defaultdict(list)`. -/
def addAdj (adj : ℕ → List (ℕ × ℤ)) (u : ℕ) (entry : ℕ × ℤ) :
    ℕ → List (ℕ × ℤ) :=
  fun x => if x = u then adj u ++ [entry] else adj x

/-- The two appends done for one edge with weight `w`:
`adj_list[e.from_vertex.id].append((e.to_vertex.id, weight))` and
`adj_list[e.to_vertex.id].append((e.from_vertex.id, weight))`. -/
def insertEdge (adj : ℕ → List (ℕ × ℤ)) (e : Edge) (w : ℤ) :
    ℕ → List (ℕ × ℤ) :=
  addAdj (addAdj adj e.fromV (e.toV, w)) e.toV (e.fromV, w)

/-- The edge loop shared by both conversions: look up each edge's `weight`
property (a missing property raises `KeyError`, modelled as `Except.error`
carrying the offending edge) and append the edge in both orientations. -/
def buildAdjList : List Edge → (ℕ → List (ℕ × ℤ)) →
    Except Edge (ℕ → List (ℕ × ℤ))
  | [], adj => Except.ok adj
  | e :: rest, adj =>
      match e.weight with
      | none => Except.error e
      | some w => buildAdjList rest (insertEdge adj e w)

/-- The internal graph: the collected node ids and the adjacency mapping
(`defaultdict`: every id maps to a list, absent ids to `[]`). -/
structure Graph : Type where
  nodes : List ℕ
  adj : ℕ → List (ℕ × ℤ)

/-- `_convert_to_graph(context)`: collect all vertex ids, then walk every
vertex's out-edges appending each edge in both orientations. `outEdges` is
the concatenation, in iteration order, of the out-edge lists of all
vertices of the host graph. -/
def convert_to_graph (vertexIds : List ℕ) (outEdges : List Edge) :
    Except Edge Graph :=
  match buildAdjList outEdges (fun _ => []) with
  | Except.error e => Except.error e
  | Except.ok adj => Except.ok { nodes := vertexIds, adj := adj }

/-- `_convert_to_subgraph(context, vertices, edges)`: collect the supplied
vertex ids, then append every supplied edge in both orientations — without
checking that its endpoints are among the supplied vertices. -/
def convert_to_subgraph (vertexIds : List ℕ) (edges : List Edge) :
    Except Edge Graph :=
  match buildAdjList edges (fun _ => []) with
  | Except.error e => Except.error e
  | Except.ok adj => Except.ok { nodes := vertexIds, adj := adj }

/-- A parameter value in the `_run_algorithm` default table: an integer, a
numeric constant, a strategy object, or a list of strategy objects. -/
inductive PValue : Type
  | int (n : ℤ)
  | num (q : ℚ)
  | strategy (s : String)
  | strategies (l : List String)
  deriving DecidableEq

/-- The `_default_parameters` table of `_run_algorithm`, entry for entry. -/
def default_parameters : List (String × PValue) :=
  [("no_of_processes", PValue.int 1),
   ("no_of_chunks", PValue.int 1),
   ("communication_delay", PValue.int 10),
   ("max_iterations", PValue.int 10),
   ("population_size", PValue.int 7),
   ("no_of_colors", PValue.int 3),
   ("max_steps", PValue.int 25),
   ("temperature", PValue.num (35 / 1000)),
   ("mutation", PValue.strategy "SimpleMutation"),
   ("error", PValue.strategy "ConflictError"),
   ("alpha", PValue.num (1 / 10)),
   ("beta", PValue.num (1 / 1000)),
   ("algorithms", PValue.strategies ["LDO", "SDO"]),
   ("logging_delay", PValue.int 5),
   ("convergence_tolerance", PValue.int 500),
   ("convergence_probability", PValue.num (1 / 2)),
   ("max_attempts_tunneling", PValue.int 10),
   ("neigh_mutation_probability", PValue.num (35 / 1000)),
   ("mutation_tunneling", PValue.strategy "MultipleMutation"),
   ("multiple_mutation_no_of_nodes", PValue.int 5),
   ("random_mutation_probability", PValue.num (1 / 10)),
   ("random_mutation_probability_2", PValue.num (1 / 2))]

/-- The parameter bag `_run_algorithm(graph, parameters)` actually hands to
`QA().run`: the source executes `sol = alg.run(graph, _default_parameters)`,
so the caller-supplied `parameters` argument is never consulted. -/
def run_algorithm_consumed (parameters : List (String × PValue)) :
    List (String × PValue) :=
  default_parameters

/-- Symmetry of an adjacency mapping: every recorded neighbour entry has its
mirror entry. -/
def SymAdj (adj : ℕ → List (ℕ × ℤ)) : Prop :=
  ∀ u v w, (v, w) ∈ adj u → (u, w) ∈ adj v

/-- A concrete conversion result used to instantiate the symmetry claim:
host graph with vertices 0, 1 and one edge 0→1 of weight 2. -/
def exampleGraph : Graph :=
  { nodes := [0, 1], adj := insertEdge (fun _ => []) ⟨0, 1, some 2⟩ 2 }

/-- A concrete subgraph conversion result: supplied vertices `[0]` and one
supplied edge 0→1 of weight 1 whose head endpoint 1 is not among the
supplied vertices. -/
def exampleSubgraph : Graph :=
  { nodes := [0], adj := insertEdge (fun _ => []) ⟨0, 1, some 1⟩ 1 }

end GraphColoring

namespace PopulationFactory

theorem genLoop_of_mem_none {α : Type} (ps : ℕ) :
    ∀ (outs : List (Option α)) (acc : List α), none ∈ outs →
      genLoop ps outs acc = none := by
  intro outs
  induction outs with
  | nil => intro acc h; cases h
  | cons o rest ih =>
      intro acc h
      cases o with
      | none => rfl
      | some a =>
          have : none ∈ rest := by
            cases h with
            | tail _ h2 => exact h2
          simpa [genLoop] using ih _ this

theorem genLoop_all_some {α : Type} (ps : ℕ) :
    ∀ (outs : List α) (acc : List α),
      genLoop ps (outs.map some) acc = some (acc ++ outs.take (ps - acc.length)) := by
  intro outs
  induction outs with
  | nil => intro acc; simp [genLoop]
  | cons o rest ih =>
      intro acc
      by_cases h : acc.length < ps
      · have h1 : ps - acc.length = (ps - (acc.length + 1)) + 1 := by omega
        simp only [List.map_cons, genLoop, if_pos h, ih]
        rw [h1, List.take_succ_cons]
        simp
      · have h0 : ps - acc.length = 0 := by omega
        have h0' : ps - (acc ++ [o]).length = 0 := by
          simp only [List.length_append, List.length_cons, List.length_nil]; omega
        simp [genLoop, if_neg h, ih, h0]

/-- Claim C3: a failing seeding algorithm makes `generate_individuals`
propagate no result, and `create` (single- or multi-chunk) then returns no
population at all. -/
theorem claim_C3_seeding_failure_aborts {α : Type}
    (ps n : ℕ) (results : List (Option α)) (fresh : ℕ → α)
    (h : none ∈ results) :
    generate_individuals ps (some results) fresh = none
    ∧ ∀ pops, create ps n (some results) fresh ≠ Except.ok pops := by
  have hg : generate_individuals ps (some results) fresh = none := by
    simp [generate_individuals, genLoop_of_mem_none ps results [] h]
  refine ⟨hg, ?_⟩
  intro pops hc
  by_cases hv : ps < n
  · simp [create, hv] at hc
  · simp [create, hv, hg] at hc

theorem claim_C3_witness :
    generate_individuals 1 (some [(none : Option ℕ)]) (fun i => i) = none
    ∧ create 1 1 (some [(none : Option ℕ)]) (fun i => i) ≠ Except.ok [] :=
  ⟨(claim_C3_seeding_failure_aborts 1 1 [none] (fun i => i) (by decide)).1,
   (claim_C3_seeding_failure_aborts 1 1 [none] (fun i => i) (by decide)).2 []⟩

/-- Claim C2: when `population_size < no_of_chunks`, `create` fails with the
ValidationError of the entry validation (modelled from the spec, see
`create`), not with a later error from chunk construction, and returns no
chunks. -/
theorem claim_C2_validation_before_chunking {α : Type}
    (ps n : ℕ) (algResults : Option (List (Option α))) (fresh : ℕ → α)
    (h : ps < n) :
    create ps n algResults fresh = Except.error CreateError.validationError := by
  simp [create, h]

theorem claim_C2_witness :
    create 2 5 (none) (fun i : ℕ => i)
      = Except.error CreateError.validationError :=
  claim_C2_validation_before_chunking 2 5 none (fun i => i) (by decide)

/-- Claim C6: when every configured seeding algorithm succeeds,
`generate_individuals` keeps the first `population_size` algorithm outputs
in configuration order, discards the excess, fills up with freshly built
random individuals, and returns exactly `population_size` individuals. -/
theorem claim_C6_generate_individuals_shape {α : Type}
    (ps : ℕ) (outputs : List α) (fresh : ℕ → α) :
    generate_individuals ps (some (outputs.map some)) fresh
      = some (outputs.take ps
          ++ (List.range (ps - min outputs.length ps)).map fresh)
    ∧ (outputs.take ps
          ++ (List.range (ps - min outputs.length ps)).map fresh).length = ps := by
  constructor
  · have hbase := genLoop_all_some ps outputs []
    simp only [List.length_nil, Nat.sub_zero, List.nil_append] at hbase
    simp [generate_individuals, hbase, List.length_take, Nat.min_comm]
  · simp only [List.length_append, List.length_take, List.length_map,
      List.length_range]
    omega

/-- Claim C7: with `no_of_chunks == 1`, `create` returns exactly one
population, a `ChainPopulation` wrapping all generated individuals, with no
ring wiring. -/
theorem claim_C7_single_chunk {α : Type}
    (ps : ℕ) (algResults : Option (List (Option α))) (fresh : ℕ → α)
    (inds : List α)
    (hgen : generate_individuals ps algResults fresh = some inds)
    (hps : 1 ≤ ps) :
    create ps 1 algResults fresh = Except.ok [Pop.chainPopulation inds] := by
  have hv : ¬ ps < 1 := by omega
  simp [create, hv, hgen]

theorem claim_C7_witness :
    create 2 1 (none) (fun i : ℕ => i)
      = Except.ok [Pop.chainPopulation [0, 1]] :=
  claim_C7_single_chunk 2 none (fun i => i) [0, 1] (by rfl) (by decide)

theorem chunk_upper_bound (p n i : ℕ) (hi : i ≤ n) :
    i * (p / n) + min i (p % n) ≤ p := by
  have hsum : n * (p / n) + p % n = p := Nat.div_add_mod p n
  have h1 : i * (p / n) ≤ n * (p / n) := Nat.mul_le_mul_right _ hi
  have h2 : min i (p % n) ≤ p % n := min_le_right _ _
  omega

theorem slice_len_arith (P k m x i : ℕ) (hb : x + k + min (i + 1) m ≤ P) :
    min (x + k + min (i + 1) m - (x + min i m)) (P - (x + min i m))
      = if i < m then k + 1 else k := by
  rcases Nat.lt_or_ge i m with hc | hc
  · rw [min_eq_left (by omega : i + 1 ≤ m), min_eq_left (by omega : i ≤ m),
      if_pos hc]
    rw [min_eq_left (by omega : i + 1 ≤ m)] at hb
    omega
  · rw [min_eq_right (by omega : m ≤ i + 1), min_eq_right (by omega : m ≤ i),
      if_neg (by omega)]
    rw [min_eq_right (by omega : m ≤ i + 1)] at hb
    omega

theorem chunk_slice_length {α : Type} (l : List α) (p n i : ℕ)
    (hlen : l.length = p) (hi : i < n) :
    (pySlice l (i * (p / n) + min i (p % n))
        ((i + 1) * (p / n) + min (i + 1) (p % n))).length
      = if i < p % n then p / n + 1 else p / n := by
  have hb : (i + 1) * (p / n) + min (i + 1) (p % n) ≤ p :=
    chunk_upper_bound p n (i + 1) hi
  have hmul : (i + 1) * (p / n) = i * (p / n) + p / n := by ring
  rw [hmul] at hb
  simp only [pySlice, List.length_take, List.length_drop, hlen, hmul]
  exact slice_len_arith p (p / n) (p % n) (i * (p / n)) i hb

theorem list_chunks_getD {α : Type} (l : List α) (p n i : ℕ) (hi : i < n) :
    (list_chunks l p n).getD i []
      = pySlice l (i * (p / n) + min i (p % n))
          ((i + 1) * (p / n) + min (i + 1) (p % n)) := by
  simp only [list_chunks, List.getD_eq_getElem?_getD, List.getElem?_map,
    List.getElem?_range hi]
  rfl

theorem flatten_pySlices {α : Type} (l : List α) (k m : ℕ) :
    ∀ j : ℕ,
      ((List.range j).map (fun i =>
        pySlice l (i * k + min i m) ((i + 1) * k + min (i + 1) m))).flatten
      = l.take (j * k + min j m) := by
  intro j
  induction j with
  | zero => simp [pySlice]
  | succ j ih =>
      rw [List.range_succ, List.map_append, List.flatten_append, ih]
      have hab : j * k + min j m ≤ (j + 1) * k + min (j + 1) m := by
        have h1 : j * k ≤ (j + 1) * k := Nat.mul_le_mul_right _ (Nat.le_succ j)
        have h2 : min j m ≤ min (j + 1) m := by
          rcases Nat.le_total j m with h | h
          · rcases Nat.le_total (j + 1) m with h' | h'
            · rw [min_eq_left h, min_eq_left h']; omega
            · rw [min_eq_left h, min_eq_right h']; omega
          · rw [min_eq_right h, min_eq_right (by omega)]
        omega
      simp only [List.map_cons, List.map_nil, List.flatten_cons,
        List.flatten_nil, List.append_nil, pySlice]
      rw [← List.take_add, Nat.add_sub_cancel' hab]

/-- Claim C5: for a list of length `population_size` and
`1 ≤ no_of_chunks ≤ population_size`, `_list_chunks` yields `no_of_chunks`
contiguous groups in original order, the first `population_size mod
no_of_chunks` of size `population_size / no_of_chunks + 1` and the rest of
size `population_size / no_of_chunks`, whose concatenation is the original
list. -/
theorem claim_C5_list_chunks_partition {α : Type} (l : List α) (p n : ℕ)
    (hlen : l.length = p) (h1 : 1 ≤ n) (h2 : n ≤ p) :
    (list_chunks l p n).length = n
    ∧ (∀ i, i < n → ((list_chunks l p n).getD i []).length
        = if i < p % n then p / n + 1 else p / n)
    ∧ (list_chunks l p n).flatten = l := by
  refine ⟨by simp [list_chunks], ?_, ?_⟩
  · intro i hi
    rw [list_chunks_getD l p n i hi, chunk_slice_length l p n i hlen hi]
  · have hm : p % n < n := Nat.mod_lt _ (by omega)
    have hflat := flatten_pySlices l (p / n) (p % n) n
    have hfull : n * (p / n) + min n (p % n) = p := by
      have hsum : n * (p / n) + p % n = p := Nat.div_add_mod p n
      rw [min_eq_right (Nat.le_of_lt hm)]
      exact hsum
    simp only [list_chunks]
    rw [hflat, hfull, ← hlen, List.take_length]

theorem claim_C5_witness :
    (list_chunks (List.range 10) 10 3).flatten = List.range 10
    ∧ ((list_chunks (List.range 10) 10 3).getD 0 []).length = 4
    ∧ ((list_chunks (List.range 10) 10 3).getD 1 []).length = 3
    ∧ ((list_chunks (List.range 10) 10 3).getD 2 []).length = 3 := by
  have h := claim_C5_list_chunks_partition (List.range 10) 10 3
    (by simp) (by decide) (by decide)
  refine ⟨h.2.2, ?_, ?_, ?_⟩
  · have h0 := h.2.1 0 (by decide)
    simpa using h0
  · have h1 := h.2.1 1 (by decide)
    simpa using h1
  · have h2 := h.2.1 2 (by decide)
    simpa using h2

/-- Claim C1 (failing instance): for `population_size = 3`,
`no_of_chunks = 3` the populations produced by `create` are fully
evaluated; chunk 1's `prev_individual` is 2, the tail of chunk 2, whereas
the tail of chunk `(1-1) mod 3 = 0` is 0: the ring invariant claimed for
`prev_individual` fails at chunk index 1 (the source guard `i - 1 > 0`
skips the case `i = 1`). -/
theorem claim_C1_prev_wired_to_wrong_chunk :
    create 3 3 (none) (fun i : ℕ => i)
      = Except.ok [Pop.chainChunk [0] 2 1,
                   Pop.chainChunk [1] 2 2,
                   Pop.chainChunk [2] 1 0]
    ∧ ((list_chunks (List.range 3) 3 3).getD ((1 - 1) % 3) []).getLast?
        = some 0 :=
  ⟨rfl, by decide⟩

end PopulationFactory

namespace GraphColoring

theorem mem_addAdj_iff {adj : ℕ → List (ℕ × ℤ)} {u x : ℕ}
    {entry p : ℕ × ℤ} :
    p ∈ addAdj adj u entry x ↔ p ∈ adj x ∨ (x = u ∧ p = entry) := by
  unfold addAdj
  by_cases h : x = u <;> simp [h]

theorem mem_insertEdge_iff {adj : ℕ → List (ℕ × ℤ)} {e : Edge} {w : ℤ}
    {x : ℕ} {p : ℕ × ℤ} :
    p ∈ insertEdge adj e w x
      ↔ p ∈ adj x ∨ (x = e.fromV ∧ p = (e.toV, w))
          ∨ (x = e.toV ∧ p = (e.fromV, w)) := by
  unfold insertEdge
  rw [mem_addAdj_iff, mem_addAdj_iff]
  tauto

theorem symAdj_insertEdge {adj : ℕ → List (ℕ × ℤ)} {e : Edge} {w : ℤ}
    (h : SymAdj adj) : SymAdj (insertEdge adj e w) := by
  intro u v w' hmem
  rw [mem_insertEdge_iff] at hmem ⊢
  rcases hmem with h1 | ⟨hx, hp⟩ | ⟨hx, hp⟩
  · exact Or.inl (h u v w' h1)
  · injection hp with hv hw
    subst hx; subst hv; subst hw
    exact Or.inr (Or.inr ⟨rfl, rfl⟩)
  · injection hp with hv hw
    subst hx; subst hv; subst hw
    exact Or.inr (Or.inl ⟨rfl, rfl⟩)

theorem symAdj_buildAdjList :
    ∀ (es : List Edge) (adj adj' : ℕ → List (ℕ × ℤ)), SymAdj adj →
      buildAdjList es adj = Except.ok adj' → SymAdj adj' := by
  intro es
  induction es with
  | nil =>
      intro adj adj' hsym hok
      cases hok
      exact hsym
  | cons e rest ih =>
      intro adj adj' hsym hok
      cases hw : e.weight with
      | none => simp [buildAdjList, hw] at hok
      | some w =>
          simp only [buildAdjList, hw] at hok
          exact ih _ _ (symAdj_insertEdge hsym) hok

theorem symAdj_empty : SymAdj (fun _ => []) := by
  intro u v w h
  cases h

theorem convert_to_graph_ok {vs : List ℕ} {es : List Edge} {g : Graph}
    (h : convert_to_graph vs es = Except.ok g) :
    buildAdjList es (fun _ => []) = Except.ok g.adj ∧ g.nodes = vs := by
  cases hb : buildAdjList es (fun _ => []) with
  | error e => simp [convert_to_graph, hb] at h
  | ok adj =>
      simp only [convert_to_graph, hb] at h
      cases h
      exact ⟨rfl, rfl⟩

theorem convert_to_subgraph_ok {vs : List ℕ} {es : List Edge} {g : Graph}
    (h : convert_to_subgraph vs es = Except.ok g) :
    buildAdjList es (fun _ => []) = Except.ok g.adj ∧ g.nodes = vs := by
  cases hb : buildAdjList es (fun _ => []) with
  | error e => simp [convert_to_subgraph, hb] at h
  | ok adj =>
      simp only [convert_to_subgraph, hb] at h
      cases h
      exact ⟨rfl, rfl⟩

/-- Claim C8: in both full-graph and subgraph mode, a successfully built
Graph has a symmetric adjacency: whenever `(v, w)` appears in node `u`'s
adjacency sequence, `(u, w)` appears in node `v`'s. -/
theorem claim_C8_adjacency_symmetric (vs : List ℕ) (es : List Edge) :
    (∀ g, convert_to_graph vs es = Except.ok g →
      ∀ u v w, (v, w) ∈ g.adj u → (u, w) ∈ g.adj v)
    ∧ (∀ g, convert_to_subgraph vs es = Except.ok g →
      ∀ u v w, (v, w) ∈ g.adj u → (u, w) ∈ g.adj v) := by
  constructor
  · intro g hok u v w
    exact symAdj_buildAdjList es _ _ symAdj_empty (convert_to_graph_ok hok).1 u v w
  · intro g hok u v w
    exact symAdj_buildAdjList es _ _ symAdj_empty (convert_to_subgraph_ok hok).1 u v w

theorem claim_C8_witness :
    ((0 : ℕ), (2 : ℤ)) ∈ exampleGraph.adj 1 :=
  (claim_C8_adjacency_symmetric [0, 1] [⟨0, 1, some 2⟩]).1 exampleGraph rfl
    0 1 2 (by decide)

theorem mem_buildAdjList_mono :
    ∀ (es : List Edge) (adj adj' : ℕ → List (ℕ × ℤ)) (x : ℕ) (p : ℕ × ℤ),
      buildAdjList es adj = Except.ok adj' → p ∈ adj x → p ∈ adj' x := by
  intro es
  induction es with
  | nil =>
      intro adj adj' x p hok hmem
      cases hok
      exact hmem
  | cons e rest ih =>
      intro adj adj' x p hok hmem
      cases hw : e.weight with
      | none => simp [buildAdjList, hw] at hok
      | some w =>
          simp only [buildAdjList, hw] at hok
          exact ih _ _ x p hok (mem_insertEdge_iff.mpr (Or.inl hmem))

theorem buildAdjList_adds_edge :
    ∀ (es : List Edge) (adj adj' : ℕ → List (ℕ × ℤ)) (e : Edge) (w : ℤ),
      buildAdjList es adj = Except.ok adj' → e ∈ es → e.weight = some w →
      (e.toV, w) ∈ adj' e.fromV ∧ (e.fromV, w) ∈ adj' e.toV := by
  intro es
  induction es with
  | nil =>
      intro adj adj' e w hok hmem
      cases hmem
  | cons e0 rest ih =>
      intro adj adj' e w hok hmem hw
      cases hmem with
      | head =>
          simp only [buildAdjList, hw] at hok
          constructor
          · exact mem_buildAdjList_mono rest _ _ _ _ hok
              (mem_insertEdge_iff.mpr (Or.inr (Or.inl ⟨rfl, rfl⟩)))
          · exact mem_buildAdjList_mono rest _ _ _ _ hok
              (mem_insertEdge_iff.mpr (Or.inr (Or.inr ⟨rfl, rfl⟩)))
      | tail _ hmem2 =>
          cases hw0 : e0.weight with
          | none => simp [buildAdjList, hw0] at hok
          | some w0 =>
              simp only [buildAdjList, hw0] at hok
              exact ih _ _ e w hok hmem2 hw

/-- Claim C9: `_convert_to_subgraph` records every supplied edge in both
orientations whatever the supplied vertex list contains, and on the
concrete input `vertices = [0]`, `edges = [0→1 weight 1]` the resulting
adjacency has entries for node 1 although 1 is absent from the node
list. -/
theorem claim_C9_subgraph_edges_unchecked :
    (∀ (vs : List ℕ) (es : List Edge) (e : Edge) (w : ℤ) (g : Graph),
        convert_to_subgraph vs es = Except.ok g → e ∈ es →
        e.weight = some w →
        (e.toV, w) ∈ g.adj e.fromV ∧ (e.fromV, w) ∈ g.adj e.toV)
    ∧ convert_to_subgraph [0] [⟨0, 1, some 1⟩] = Except.ok exampleSubgraph
    ∧ exampleSubgraph.adj 1 ≠ []
    ∧ (1 : ℕ) ∉ exampleSubgraph.nodes := by
  refine ⟨?_, rfl, by decide, by decide⟩
  intro vs es e w g hok hmem hw
  exact buildAdjList_adds_edge es _ _ e w (convert_to_subgraph_ok hok).1 hmem hw

theorem claim_C9_witness :
    ((1 : ℕ), (1 : ℤ)) ∈ exampleSubgraph.adj 0
    ∧ exampleSubgraph.adj 1 ≠ []
    ∧ (1 : ℕ) ∉ exampleSubgraph.nodes :=
  ⟨(claim_C9_subgraph_edges_unchecked.1 [0] [⟨0, 1, some 1⟩] ⟨0, 1, some 1⟩ 1
      exampleSubgraph rfl (by decide) rfl).1,
   claim_C9_subgraph_edges_unchecked.2.2.1,
   claim_C9_subgraph_edges_unchecked.2.2.2⟩

theorem buildAdjList_error_of_missing :
    ∀ (es : List Edge) (adj : ℕ → List (ℕ × ℤ)),
      (∃ e, e ∈ es ∧ e.weight = none) →
      ∃ e', e' ∈ es ∧ e'.weight = none ∧ buildAdjList es adj = Except.error e' := by
  intro es
  induction es with
  | nil =>
      intro adj h
      obtain ⟨e, hmem, _⟩ := h
      cases hmem
  | cons e0 rest ih =>
      intro adj h
      cases hw0 : e0.weight with
      | none =>
          exact ⟨e0, List.mem_cons_self e0 rest, hw0, by simp [buildAdjList, hw0]⟩
      | some w0 =>
          obtain ⟨e, hmem, hw⟩ := h
          have hrest : e ∈ rest := by
            cases hmem with
            | head => rw [hw0] at hw; cases hw
            | tail _ h2 => exact h2
          obtain ⟨e', hmem', hw', herr⟩ := ih (insertEdge adj e0 w0) ⟨e, hrest, hw⟩
          exact ⟨e', List.mem_cons_of_mem e0 hmem', hw',
            by simp [buildAdjList, hw0, herr]⟩

/-- Claim C10: when some edge lacks the `weight` property, both conversions
fail with the key-lookup error at an offending edge and return no Graph. -/
theorem claim_C10_missing_weight_fails (vs : List ℕ) (es : List Edge)
    (h : ∃ e, e ∈ es ∧ e.weight = none) :
    (∃ e', e' ∈ es ∧ e'.weight = none
        ∧ convert_to_graph vs es = Except.error e')
    ∧ (∃ e', e' ∈ es ∧ e'.weight = none
        ∧ convert_to_subgraph vs es = Except.error e') := by
  obtain ⟨e', hmem, hw, herr⟩ := buildAdjList_error_of_missing es (fun _ => []) h
  exact ⟨⟨e', hmem, hw, by simp [convert_to_graph, herr]⟩,
         ⟨e', hmem, hw, by simp [convert_to_subgraph, herr]⟩⟩

theorem claim_C10_witness :
    (∃ e', e' ∈ [Edge.mk 0 1 none] ∧ e'.weight = none
        ∧ convert_to_graph [0] [Edge.mk 0 1 none] = Except.error e')
    ∧ (∃ e', e' ∈ [Edge.mk 0 1 none] ∧ e'.weight = none
        ∧ convert_to_subgraph [0] [Edge.mk 0 1 none] = Except.error e') :=
  claim_C10_missing_weight_fails [0] [Edge.mk 0 1 none]
    ⟨Edge.mk 0 1 none, by decide, rfl⟩

/-- Claim C4 (failing behaviour): `_run_algorithm` hands `QA().run` the
fixed internal default table whatever the caller supplied — a caller
setting `population_size` to 2 still runs with the default 7, and an empty
caller map is silently replaced by the full default table instead of
failing fast. -/
theorem claim_C4_caller_parameters_ignored :
    run_algorithm_consumed [("population_size", PValue.int 2)]
        = default_parameters
    ∧ (run_algorithm_consumed [("population_size", PValue.int 2)]).lookup
        "population_size" = some (PValue.int 7)
    ∧ run_algorithm_consumed [] = default_parameters :=
  ⟨rfl, by decide, rfl⟩

end GraphColoring
